import Mathlib

/-!
Shallow embedding of the "Community Problem Solver" backend
(`src/unnamed/part_000`; `part_001` is the `/api`-prefixed packaging
duplicate of the same handlers).

The process state is a JS array `problems` and a counter `nextId = 1`.
Each HTTP handler is embedded as a pure function from that state (plus
its request data and the current time) to a new state and a result.
Timestamps (`new Date().toISOString()`) are modelled by a natural
number clock value `now` supplied to each call: ISO-8601 strings of a
monotone clock compare like the instants they encode.  Request-body
fields are modelled as `Option String` (`none` = absent), which is
enough for every claim; JS truthiness of such a value (`if (title)`,
`title && …`) is `isTruthy` below: `none` and `some ""` are falsy.
-/

/-- Problem record, as built by the `POST /problems` handler.  The
`id` field is a natural number (ids are assigned from the counter
starting at 1); timestamps are clock values as explained above. -/
structure Problem where
  id : Nat
  title : String
  description : String
  category : String
  location : String
  upvotes : Nat
  status : String
  createdAt : Nat
  updatedAt : Nat
deriving Repr, DecidableEq

/-- Process-wide state: the `problems` array and the `nextId` counter. -/
structure State where
  problems : List Problem
  nextId : Nat
deriving Repr, DecidableEq

/-- State at process start: `let problems = []; let nextId = 1;`. -/
def initialState : State := { problems := [], nextId := 1 }

/-- JS truthiness of an absent-or-string value: `undefined` and `""`
are falsy, every other string is truthy. -/
def isTruthy (o : Option String) : Bool :=
  match o with
  | none => false
  | some s => s ≠ ""

/-- ECMAScript whitespace accepted by `parseInt` (the common subset:
space, tab, newline, carriage return, form feed, vertical tab). -/
def jsWhitespace (c : Char) : Bool :=
  c = ' ' || c = '\t' || c = '\n' || c = '\r' || c = '\x0c' || c = '\x0b'

/-- Decimal digit test used by `parseInt`. -/
def isDigit10 (c : Char) : Bool := '0' ≤ c && c ≤ '9'

/-- Hexadecimal digit test used by `parseInt` after a `0x`/`0X` prefix. -/
def isDigit16 (c : Char) : Bool :=
  isDigit10 c || ('a' ≤ c && c ≤ 'f') || ('A' ≤ c && c ≤ 'F')

/-- Numeric value of a digit character. -/
def digitVal (c : Char) : Nat :=
  if isDigit10 c then c.toNat - '0'.toNat
  else if 'a' ≤ c && c ≤ 'f' then c.toNat - 'a'.toNat + 10
  else c.toNat - 'A'.toNat + 10

/-- Longest prefix of characters satisfying `p`. -/
def takeDigits (p : Char → Bool) : List Char → List Char
  | [] => []
  | c :: cs => if p c then c :: takeDigits p cs else []

/-- Value of a digit string in radix `r`. -/
def digitsToNat (r : Nat) (ds : List Char) : Nat :=
  ds.foldl (fun acc c => acc * r + digitVal c) 0

/-- Sign read by `parseInt` after leading whitespace: -1 for a `'-'`,
otherwise 1. -/
def signOf (s : String) : Int :=
  match s.data.dropWhile jsWhitespace with
  | '-' :: _ => -1
  | _ => 1

/-- Characters remaining after `parseInt`'s whitespace-and-sign
prefix. -/
def afterSign (s : String) : List Char :=
  match s.data.dropWhile jsWhitespace with
  | '-' :: rest => rest
  | '+' :: rest => rest
  | cs => cs

/-- Whether `parseInt` applies its hexadecimal interpretation to this
string: the characters after whitespace and sign start with `0x` or
`0X`. -/
def hexPrefixed (s : String) : Bool :=
  match afterSign s with
  | c1 :: c2 :: _ => c1 = '0' && (c2 = 'x' || c2 = 'X')
  | _ => false

/-- ECMAScript `parseInt(string)` with no radix argument, as used in
every `:id` handler (`parseInt(req.params.id)`): skip leading
whitespace, read an optional sign, switch to radix 16 on a `0x`/`0X`
prefix, read the longest run of digits of the radix; `none` models the
`NaN` result when that run is empty. -/
def parseInt (s : String) : Option Int :=
  let body := if hexPrefixed s then (afterSign s).drop 2 else afterSign s
  let radix : Nat := if hexPrefixed s then 16 else 10
  let ds := takeDigits (if hexPrefixed s then isDigit16 else isDigit10) body
  if ds.isEmpty then none
  else some (signOf s * (digitsToNat radix ds : Int))

/-- Reading of the claim's words "the leading characters form a
decimal integer": the longest leading run of decimal digits after
optional whitespace and sign, with no hexadecimal interpretation.
Claim-side definition, written from the claim to be compared with
`parseInt`. -/
def leadingDecimal (s : String) : Option Int :=
  let ds := takeDigits isDigit10 (afterSign s)
  if ds.isEmpty then none
  else some (signOf s * (digitsToNat 10 ds : Int))

/-- Embedding of the predicate `p => p.id === parseInt(req.params.id)`
used by `find`/`findIndex` in every `:id` handler.  A `NaN` result of
`parseInt` (`none`) is `===`-equal to nothing. -/
def matchesId (idStr : String) (p : Problem) : Bool :=
  match parseInt idStr with
  | none => false
  | some n => n == (p.id : Int)

/-- Outcome of a single-record handler: the JSON success payload
carries the record; `notFound` is the 404 response, `invalidInput` the
400 response. -/
inductive OpResult where
  | ok (p : Problem)
  | notFound
  | invalidInput
deriving Repr, DecidableEq

/-- Replace the first element satisfying `f` by its image under `g`,
returning the new list and the new element; `none` when no element
matches.  This models the `findIndex` / mutate-at-index /
return-`problems[problemIndex]` pattern of the update, upvote and
status handlers. -/
def updateFirst (f : Problem → Bool) (g : Problem → Problem) :
    List Problem → Option (List Problem × Problem)
  | [] => none
  | p :: ps =>
    if f p then some (g p :: ps, g p)
    else
      match updateFirst f g ps with
      | none => none
      | some (ps', q) => some (p :: ps', q)

/-- Remove the first element satisfying `f`, returning the remaining
list and the removed element; models `findIndex` + `splice(i, 1)[0]`. -/
def removeFirst (f : Problem → Bool) :
    List Problem → Option (List Problem × Problem)
  | [] => none
  | p :: ps =>
    if f p then some (ps, p)
    else
      match removeFirst f ps with
      | none => none
      | some (ps', q) => some (p :: ps', q)

/-- Handler `GET /problems` (lines 35-51): copy the array, filter by
`status` if that query value is truthy, then by `category` if truthy.
It never mutates the state and never fails. -/
def listProblems (status category : Option String) (st : State) :
    List Problem :=
  let l1 :=
    if isTruthy status then
      st.problems.filter (fun p => p.status == status.getD "")
    else st.problems
  if isTruthy category then
    l1.filter (fun p => p.category == category.getD "")
  else l1

/-- Handler `GET /problems/:id` (lines 54-68): `find` by the parsed
id; 404 when absent.  It never mutates the state. -/
def getProblem (idStr : String) (st : State) : OpResult :=
  match st.problems.find? (matchesId idStr) with
  | none => .notFound
  | some p => .ok p

/-- Handler `POST /problems` (lines 71-100): 400 when any of the four
body fields is falsy; otherwise build the record with `id = nextId++`,
`upvotes = 0`, `status = 'open'`, both timestamps `now`, push it and
return it. -/
def createProblem (title description category location : Option String)
    (now : Nat) (st : State) : State × OpResult :=
  if !isTruthy title || !isTruthy description || !isTruthy category
      || !isTruthy location then
    (st, .invalidInput)
  else
    let p : Problem :=
      { id := st.nextId
        title := title.getD ""
        description := description.getD ""
        category := category.getD ""
        location := location.getD ""
        upvotes := 0
        status := "open"
        createdAt := now
        updatedAt := now }
    ({ problems := st.problems ++ [p], nextId := st.nextId + 1 }, .ok p)

/-- Spread-with-guard `...(field && { field })` of the update handler:
a truthy new value overrides, a falsy one keeps the old value. -/
def jsOr (newVal : Option String) (old : String) : String :=
  if isTruthy newVal then newVal.getD "" else old

/-- Record rebuild of the update handler: the spread
`{...old, ...(title && {title}), ..., updatedAt: now}` — every truthy
request field overrides, every falsy one is kept, `updatedAt` is set
unconditionally. -/
def applyUpdateFields (title description category location status : Option String)
    (now : Nat) (p : Problem) : Problem :=
  { p with
    title := jsOr title p.title
    description := jsOr description p.description
    category := jsOr category p.category
    location := jsOr location p.location
    status := jsOr status p.status
    updatedAt := now }

/-- Handler `PUT /problems/:id` (lines 103-130): 404 when the parsed
id is absent; otherwise rebuild the record keeping every field whose
request value is falsy, and set `updatedAt` unconditionally.  No
validation of `status` is performed. -/
def updateProblem (idStr : String)
    (title description category location status : Option String)
    (now : Nat) (st : State) : State × OpResult :=
  match updateFirst (matchesId idStr)
      (applyUpdateFields title description category location status now)
      st.problems with
  | none => (st, .notFound)
  | some (ps, q) => ({ st with problems := ps }, .ok q)

/-- Handler `POST /problems/:id/upvote` (lines 133-151): 404 when the
parsed id is absent; otherwise `upvotes += 1` and refresh `updatedAt`. -/
def upvoteProblem (idStr : String) (now : Nat) (st : State) :
    State × OpResult :=
  match updateFirst (matchesId idStr)
      (fun p => { p with upvotes := p.upvotes + 1, updatedAt := now })
      st.problems with
  | none => (st, .notFound)
  | some (ps, q) => ({ st with problems := ps }, .ok q)

/-- The status whitelist `['open', 'in-progress', 'resolved']` of the
status handler. -/
def validStatuses : List String := ["open", "in-progress", "resolved"]

/-- Handler `PATCH /problems/:id/status` (lines 154-181): the id
lookup comes first (404 when absent), then the whitelist check (400,
with no mutation, when the body status is not in it); on success set
`status` and refresh `updatedAt`. -/
def changeStatusProblem (idStr : String) (status : String) (now : Nat)
    (st : State) : State × OpResult :=
  match updateFirst (matchesId idStr)
      (fun p => { p with status := status, updatedAt := now })
      st.problems with
  | none => (st, .notFound)
  | some (ps, q) =>
    if validStatuses.contains status then ({ st with problems := ps }, .ok q)
    else (st, .invalidInput)

/-- Handler `DELETE /problems/:id` (lines 184-201): 404 when the
parsed id is absent; otherwise `splice` the record out and return it. -/
def deleteProblem (idStr : String) (st : State) : State × OpResult :=
  match removeFirst (matchesId idStr) st.problems with
  | none => (st, .notFound)
  | some (ps, q) => ({ st with problems := ps }, .ok q)

/-- Statistics payload of `GET /stats`; the JS key `open` is spelled
`open_` because `open` is a Lean keyword. -/
structure StatsData where
  total : Nat
  open_ : Nat
  inProgress : Nat
  resolved : Nat
  infrastructure : Nat
  safety : Nat
  environment : Nat
  education : Nat
  health : Nat
  topUpvoted : List Problem
deriving Repr, DecidableEq

/-- Comparator `(a, b) => b.upvotes - a.upvotes` of the stats handler:
`a` may precede `b` exactly when `a.upvotes ≥ b.upvotes`. -/
def upvoteGe (a b : Problem) : Bool := b.upvotes ≤ a.upvotes

/-- Handler `GET /stats` (lines 204-224): counts over the current
array, then `problems.sort(...)` — which reorders the live array in
place (modelled by a stable merge sort on the comparator, returning
the sorted array as the new state) — and `slice(0, 5)` of the sorted
array as `topUpvoted`.  It never fails. -/
def getStats (st : State) : State × StatsData :=
  let ps := st.problems
  let sorted := ps.mergeSort upvoteGe
  let sd : StatsData :=
    { total := ps.length
      open_ := (ps.filter (fun p => p.status == "open")).length
      inProgress := (ps.filter (fun p => p.status == "in-progress")).length
      resolved := (ps.filter (fun p => p.status == "resolved")).length
      infrastructure := (ps.filter (fun p => p.category == "infrastructure")).length
      safety := (ps.filter (fun p => p.category == "safety")).length
      environment := (ps.filter (fun p => p.category == "environment")).length
      education := (ps.filter (fun p => p.category == "education")).length
      health := (ps.filter (fun p => p.category == "health")).length
      topUpvoted := sorted.take 5 }
  ({ st with problems := sorted }, sd)

/-- One request to the service, carrying the raw `:id` path segment
where the route has one and the body/query fields the handler reads. -/
inductive Op where
  | list (status category : Option String)
  | get (idStr : String)
  | create (title description category location : Option String)
  | update (idStr : String)
      (title description category location status : Option String)
  | upvote (idStr : String)
  | changeStatus (idStr : String) (status : String)
  | delete (idStr : String)
  | stats
deriving Repr, DecidableEq

/-- Result of one request, for trace-level statements. -/
inductive StepResult where
  | res (r : OpResult)
  | listRes (ps : List Problem)
  | statsRes (sd : StatsData)
deriving Repr, DecidableEq

/-- Dispatch one request at clock value `now` against the state. -/
def applyOp (o : Op) (now : Nat) (st : State) : State × StepResult :=
  match o with
  | .list status category => (st, .listRes (listProblems status category st))
  | .get idStr => (st, .res (getProblem idStr st))
  | .create t d c l =>
    let r := createProblem t d c l now st
    (r.1, .res r.2)
  | .update idStr t d c l s =>
    let r := updateProblem idStr t d c l s now st
    (r.1, .res r.2)
  | .upvote idStr =>
    let r := upvoteProblem idStr now st
    (r.1, .res r.2)
  | .changeStatus idStr s =>
    let r := changeStatusProblem idStr s now st
    (r.1, .res r.2)
  | .delete idStr =>
    let r := deleteProblem idStr st
    (r.1, .res r.2)
  | .stats =>
    let r := getStats st
    (r.1, .statsRes r.2)

/-- Run a trace of timestamped requests from a state. -/
def run (st : State) : List (Op × Nat) → State
  | [] => st
  | (o, t) :: rest => run (applyOp o t st).1 rest

/-- Ids returned by the successful create calls of a trace, in call
order. -/
def createdIds (st : State) : List (Op × Nat) → List Nat
  | [] => []
  | (o, t) :: rest =>
    let next := (applyOp o t st).1
    match o, (applyOp o t st).2 with
    | Op.create _ _ _ _, .res (.ok p) => p.id :: createdIds next rest
    | _, _ => createdIds next rest

/-- The record literal `newProblem` of the create handler, for given
counter value, four truthy fields and clock value. -/
def newProblemRec (i : Nat) (s1 s2 s3 s4 : String) (now : Nat) : Problem :=
  { id := i, title := s1, description := s2, category := s3, location := s4,
    upvotes := 0, status := "open", createdAt := now, updatedAt := now }

/-- Concrete record used by witnesses: the spec's end-to-end example
(`§8`) right after creation at clock value 1. -/
def potholeRec : Problem :=
  { id := 1, title := "Pothole", description := "Large pothole",
    category := "infrastructure", location := "Main St", upvotes := 0,
    status := "open", createdAt := 1, updatedAt := 1 }

/-- Concrete one-record state used by witnesses. -/
def oneRecState : State := { problems := [potholeRec], nextId := 2 }

/-- Second concrete record (id 2) used by witnesses and counterexamples. -/
def streetlightRec : Problem :=
  { id := 2, title := "Streetlight", description := "Broken streetlight",
    category := "safety", location := "Oak Ave", upvotes := 3,
    status := "open", createdAt := 2, updatedAt := 2 }

/-- Concrete two-record state used by witnesses and counterexamples. -/
def twoRecState : State := { problems := [potholeRec, streetlightRec], nextId := 3 }

/-- Claim-side filter semantics of C7, written from the claim's words:
a supplied (`some`) filter value constrains by exact equality, a
missing one constrains nothing. -/
def suppliedMatch (f : Option String) (v : String) : Bool :=
  match f with
  | none => true
  | some s => v == s

/-- Filter semantics the list handler actually applies: a truthy
supplied value constrains by exact equality; an absent value — and
likewise a supplied empty string, which is falsy — constrains
nothing. -/
def effectiveMatch (f : Option String) (v : String) : Bool :=
  if isTruthy f then v == f.getD "" else true

/-- A request is status-safe when it is not an `Update` carrying a
truthy status outside the whitelist; under this restriction the
status invariant of C1 holds. -/
def opStatusSafe : Op → Bool
  | .update _ _ _ _ _ s => !isTruthy s || validStatuses.contains (s.getD "")
  | _ => true

/-- Trace violating C1 as stated: create a record, then `Update` it
with the non-whitelisted status `"bogus"`, which the update handler
persists unvalidated. -/
def c1Trace : List (Op × Nat) :=
  [(.create (some "Pothole") (some "Large pothole") (some "infrastructure")
      (some "Main St"), 1),
   (.update "1" none none none none (some "bogus"), 2)]

/-- The spec's end-to-end trace (§8): create, upvote, resolve. -/
def e2eTrace : List (Op × Nat) :=
  [(.create (some "Pothole") (some "Large pothole") (some "infrastructure")
      (some "Main St"), 1),
   (.upvote "1", 2),
   (.changeStatus "1" "resolved", 3)]

/-! ## Helper lemmas about the embedded primitives -/

theorem isTruthy_false_iff (o : Option String) :
    isTruthy o = false ↔ (o = none ∨ o = some "") := by
  cases o with
  | none => simp [isTruthy]
  | some s => simp [isTruthy]

theorem matchesId_iff (idStr : String) (p : Problem) :
    matchesId idStr p = true ↔ parseInt idStr = some (p.id : Int) := by
  unfold matchesId
  cases h : parseInt idStr with
  | none => simp
  | some n => simp

theorem updateFirst_spec {f : Problem → Bool} {g : Problem → Problem} :
    ∀ {l l' : List Problem} {q : Problem}, updateFirst f g l = some (l', q) →
      ∃ l1 p l2, l = l1 ++ p :: l2 ∧ (∀ r ∈ l1, f r = false) ∧ f p = true ∧
        l' = l1 ++ g p :: l2 ∧ q = g p := by
  intro l
  induction l with
  | nil => intro l' q h; simp [updateFirst] at h
  | cons p ps ih =>
    intro l' q h
    by_cases hp : f p
    · simp only [updateFirst, hp, if_true, Option.some.injEq, Prod.mk.injEq] at h
      exact ⟨[], p, ps, rfl, by simp, hp, by simp [← h.1], by simp [← h.2]⟩
    · simp only [updateFirst, hp, if_neg, Bool.false_eq_true, not_false_iff] at h
      cases hr : updateFirst f g ps with
      | none => rw [hr] at h; exact absurd h (by simp)
      | some pr =>
        rw [hr] at h
        obtain ⟨ps', q'⟩ := pr
        simp only [Option.some.injEq, Prod.mk.injEq] at h
        obtain ⟨l1, p0, l2, hsplit, hl1, hp0, hps', hq'⟩ := ih hr
        refine ⟨p :: l1, p0, l2, by simp [hsplit], ?_, hp0, ?_, ?_⟩
        · intro r hr'
          rcases List.mem_cons.mp hr' with h' | h'
          · subst h'; exact Bool.eq_false_iff.mpr hp
          · exact hl1 r h'
        · simp [← h.1, hps']
        · rw [← h.2, hq']

theorem updateFirst_append {f : Problem → Bool} {g : Problem → Problem}
    (l1 : List Problem) (p : Problem) (l2 : List Problem)
    (h1 : ∀ r ∈ l1, f r = false) (hp : f p = true) :
    updateFirst f g (l1 ++ p :: l2) = some (l1 ++ g p :: l2, g p) := by
  induction l1 with
  | nil => simp [updateFirst, hp]
  | cons a l1 ih =>
    have ha : f a = false := h1 a (List.mem_cons_self a l1)
    have ih' := ih (fun r hr => h1 r (List.mem_cons_of_mem a hr))
    simp [updateFirst, ha, ih']

theorem updateFirst_eq_none_iff {f : Problem → Bool} {g : Problem → Problem} :
    ∀ {l : List Problem}, updateFirst f g l = none ↔ ∀ p ∈ l, f p = false := by
  intro l
  induction l with
  | nil => simp [updateFirst]
  | cons p ps ih =>
    by_cases hp : f p
    · constructor
      · intro h; simp [updateFirst, hp] at h
      · intro h; exact absurd (h p (List.mem_cons_self p ps)) (by simp [hp])
    · cases hr : updateFirst f g ps with
      | none =>
        have hps := ih.mp hr
        constructor
        · intro _ r hr'
          rcases List.mem_cons.mp hr' with h' | h'
          · subst h'; exact Bool.eq_false_iff.mpr hp
          · exact hps r h'
        · intro _; simp [updateFirst, hp, hr]
      | some pr =>
        constructor
        · intro h; simp [updateFirst, hp, hr] at h
        · intro h
          have hn : updateFirst f g ps = none :=
            ih.mpr (fun r hr' => h r (List.mem_cons_of_mem p hr'))
          rw [hn] at hr
          exact absurd hr (by simp)

theorem removeFirst_spec {f : Problem → Bool} :
    ∀ {l l' : List Problem} {q : Problem}, removeFirst f l = some (l', q) →
      ∃ l1 l2, l = l1 ++ q :: l2 ∧ (∀ r ∈ l1, f r = false) ∧ f q = true ∧
        l' = l1 ++ l2 := by
  intro l
  induction l with
  | nil => intro l' q h; simp [removeFirst] at h
  | cons p ps ih =>
    intro l' q h
    by_cases hp : f p
    · simp only [removeFirst, hp, if_pos, Option.some.injEq, Prod.mk.injEq] at h
      exact ⟨[], ps, by simp [← h.2], by simp, h.2 ▸ hp, by simp [← h.1]⟩
    · simp only [removeFirst, hp, if_neg, Bool.false_eq_true, not_false_iff] at h
      cases hr : removeFirst f ps with
      | none => rw [hr] at h; exact absurd h (by simp)
      | some pr =>
        rw [hr] at h
        obtain ⟨ps', q'⟩ := pr
        simp only [Option.some.injEq, Prod.mk.injEq] at h
        obtain ⟨l1, l2, hsplit, hl1, hq', hps'⟩ := ih hr
        refine ⟨p :: l1, l2, by simp [hsplit, h.2], ?_, h.2 ▸ hq', by simp [← h.1, hps']⟩
        intro r hr'
        rcases List.mem_cons.mp hr' with h' | h'
        · subst h'; exact Bool.eq_false_iff.mpr hp
        · exact hl1 r h'

theorem removeFirst_append {f : Problem → Bool}
    (l1 : List Problem) (p : Problem) (l2 : List Problem)
    (h1 : ∀ r ∈ l1, f r = false) (hp : f p = true) :
    removeFirst f (l1 ++ p :: l2) = some (l1 ++ l2, p) := by
  induction l1 with
  | nil => simp [removeFirst, hp]
  | cons a l1 ih =>
    have ha : f a = false := h1 a (List.mem_cons_self a l1)
    have ih' := ih (fun r hr => h1 r (List.mem_cons_of_mem a hr))
    simp [removeFirst, ha, ih']

theorem removeFirst_eq_none_iff {f : Problem → Bool} :
    ∀ {l : List Problem}, removeFirst f l = none ↔ ∀ p ∈ l, f p = false := by
  intro l
  induction l with
  | nil => simp [removeFirst]
  | cons p ps ih =>
    by_cases hp : f p
    · constructor
      · intro h; simp [removeFirst, hp] at h
      · intro h; exact absurd (h p (List.mem_cons_self p ps)) (by simp [hp])
    · cases hr : removeFirst f ps with
      | none =>
        have hps := ih.mp hr
        constructor
        · intro _ r hr'
          rcases List.mem_cons.mp hr' with h' | h'
          · subst h'; exact Bool.eq_false_iff.mpr hp
          · exact hps r h'
        · intro _; simp [removeFirst, hp, hr]
      | some pr =>
        constructor
        · intro h; simp [removeFirst, hp, hr] at h
        · intro h
          have hn : removeFirst f ps = none :=
            ih.mpr (fun r hr' => h r (List.mem_cons_of_mem p hr'))
          rw [hn] at hr
          exact absurd hr (by simp)

theorem find?_split {f : Problem → Bool} {l : List Problem} {p : Problem}
    (h : l.find? f = some p) :
    ∃ l1 l2, l = l1 ++ p :: l2 ∧ (∀ r ∈ l1, f r = false) ∧ f p = true := by
  obtain ⟨hp, l1, l2, hsplit, hl1⟩ := List.find?_eq_some.mp h
  exact ⟨l1, l2, hsplit, fun r hr => (Bool.not_eq_true' (f r)) ▸ hl1 r hr, hp⟩

theorem find?_of_split {f : Problem → Bool} {l1 l2 : List Problem} {p : Problem}
    (hl1 : ∀ r ∈ l1, f r = false) (hp : f p = true) :
    (l1 ++ p :: l2).find? f = some p :=
  List.find?_eq_some.mpr
    ⟨hp, l1, l2, rfl, fun r hr => (Bool.not_eq_true' (f r)) ▸ hl1 r hr⟩

theorem updateFirst_map {f : Problem → Bool} {g : Problem → Problem}
    {l l' : List Problem} {q : Problem} {β : Type}
    (hm : updateFirst f g l = some (l', q)) (h : Problem → β)
    (hg : ∀ p, h (g p) = h p) : l'.map h = l.map h := by
  obtain ⟨l1, p0, l2, hsplit, _, _, hl', _⟩ := updateFirst_spec hm
  subst hsplit; subst hl'
  simp [hg]

theorem updateFirst_mem {f : Problem → Bool} {g : Problem → Problem}
    {l l' : List Problem} {q : Problem}
    (hm : updateFirst f g l = some (l', q)) :
    ∀ x ∈ l', x ∈ l ∨ ∃ p ∈ l, x = g p := by
  obtain ⟨l1, p0, l2, hsplit, _, _, hl', _⟩ := updateFirst_spec hm
  subst hsplit; subst hl'
  intro x hx
  rcases List.mem_append.mp hx with h' | h'
  · exact Or.inl (List.mem_append.mpr (Or.inl h'))
  · rcases List.mem_cons.mp h' with h'' | h''
    · exact Or.inr ⟨p0, List.mem_append.mpr (Or.inr (List.mem_cons_self p0 l2)), h''⟩
    · exact Or.inl (List.mem_append.mpr (Or.inr (List.mem_cons_of_mem p0 h'')))

theorem removeFirst_sublist {f : Problem → Bool} {l l' : List Problem}
    {q : Problem} (hm : removeFirst f l = some (l', q)) : l'.Sublist l := by
  obtain ⟨l1, l2, hsplit, _, _, hl'⟩ := removeFirst_spec hm
  subst hsplit; subst hl'
  exact List.Sublist.append (List.Sublist.refl l1) (List.sublist_cons_self q l2)

/-! ## C3: failing operations mutate nothing -/

/-- C3: `Get`, `Update`, `Upvote`, `ChangeStatus` and `Delete` invoked
with an id not borne by any stored record answer `notFound` and return
the state (records, order, and `nextId` counter) exactly as it was;
`ChangeStatus` on a present id with a status outside the whitelist
answers `invalidInput`, again with the state exactly as it was. -/
theorem failing_ops_mutate_nothing :
    (∀ (st : State) (idStr : String) (n : Int)
        (t d c l s : Option String) (v : String) (now : Nat),
      parseInt idStr = some n →
      (∀ p ∈ st.problems, (p.id : Int) ≠ n) →
      getProblem idStr st = .notFound ∧
      updateProblem idStr t d c l s now st = (st, .notFound) ∧
      upvoteProblem idStr now st = (st, .notFound) ∧
      changeStatusProblem idStr v now st = (st, .notFound) ∧
      deleteProblem idStr st = (st, .notFound)) ∧
    (∀ (st : State) (idStr : String) (v : String) (now : Nat),
      st.problems.any (matchesId idStr) = true →
      validStatuses.contains v = false →
      changeStatusProblem idStr v now st = (st, .invalidInput)) := by
  constructor
  · intro st idStr n t d c l s v now hparse habsent
    have hfalse : ∀ p ∈ st.problems, matchesId idStr p = false := by
      intro p hp
      rcases hb : matchesId idStr p with _ | _
      · rfl
      · have := (matchesId_iff idStr p).mp hb
        rw [hparse] at this
        exact absurd (Option.some.injEq .. ▸ this).symm (habsent p hp)
    have hfind : st.problems.find? (matchesId idStr) = none :=
      List.find?_eq_none.mpr (fun x hx => by simp [hfalse x hx])
    have hupd : ∀ g, updateFirst (matchesId idStr) g st.problems = none :=
      fun g => updateFirst_eq_none_iff.mpr hfalse
    have hrem : removeFirst (matchesId idStr) st.problems = none :=
      removeFirst_eq_none_iff.mpr hfalse
    refine ⟨?_, ?_, ?_, ?_, ?_⟩
    · simp [getProblem, hfind]
    · simp [updateProblem, hupd]
    · simp [upvoteProblem, hupd]
    · simp [changeStatusProblem, hupd]
    · simp [deleteProblem, hrem]
  · intro st idStr v now hany hval
    obtain ⟨x, hx, hfx⟩ := List.any_eq_true.mp hany
    cases hu : updateFirst (matchesId idStr)
        (fun p => { p with status := v, updatedAt := now }) st.problems with
    | none => exact absurd (updateFirst_eq_none_iff.mp hu x hx) (by simp [hfx])
    | some pr =>
      have hv : v ∉ validStatuses := by simp at hval; exact hval
      simp [changeStatusProblem, hu, hv]

/-- Witness for C3 at a concrete state: one stored record with id 1;
id 7 is absent, and status `"bogus"` is rejected without mutation. -/
theorem failing_ops_mutate_nothing_witness :
    getProblem "7" oneRecState = .notFound ∧
    changeStatusProblem "1" "bogus" 5 oneRecState =
      (oneRecState, .invalidInput) :=
  ⟨(failing_ops_mutate_nothing.1 oneRecState "7" 7 none none none none none
      "x" 0 (by decide) (by decide)).1,
    failing_ops_mutate_nothing.2 oneRecState "1" "bogus" 5
      (by decide) (by decide)⟩

theorem isTruthy_true_iff (o : Option String) :
    isTruthy o = true ↔ ∃ s, o = some s ∧ s ≠ "" := by
  cases o with
  | none => simp [isTruthy]
  | some s => simp [isTruthy]

/-! ## C4: create validates its four fields, then appends one record -/

/-- C4: `Create` answers `invalidInput` exactly when one of the four
body fields is missing or empty, and then returns the state unchanged;
otherwise it appends exactly one record carrying the next counter id,
the four supplied fields, `upvotes = 0`, `status = "open"` and both
timestamps equal to the current time, increments the counter, and
returns that record. -/
theorem create_validates (t d c l : Option String) (now : Nat) (st : State) :
    ((createProblem t d c l now st).2 = .invalidInput ↔
      ((t = none ∨ t = some "") ∨ (d = none ∨ d = some "") ∨
       (c = none ∨ c = some "") ∨ (l = none ∨ l = some ""))) ∧
    ((createProblem t d c l now st).2 = .invalidInput →
      createProblem t d c l now st = (st, .invalidInput)) ∧
    ((createProblem t d c l now st).2 ≠ .invalidInput →
      ∃ p, createProblem t d c l now st =
          ({ problems := st.problems ++ [p], nextId := st.nextId + 1 }, .ok p) ∧
        p.id = st.nextId ∧ t = some p.title ∧ d = some p.description ∧
        c = some p.category ∧ l = some p.location ∧ p.upvotes = 0 ∧
        p.status = "open" ∧ p.createdAt = now ∧ p.updatedAt = now) := by
  by_cases hc : (!isTruthy t || !isTruthy d || !isTruthy c || !isTruthy l) = true
  · have hres : createProblem t d c l now st = (st, .invalidInput) := by
      unfold createProblem
      rw [if_pos hc]
    have hdisj : (t = none ∨ t = some "") ∨ (d = none ∨ d = some "") ∨
        (c = none ∨ c = some "") ∨ (l = none ∨ l = some "") := by
      simp only [Bool.or_eq_true, Bool.not_eq_true'] at hc
      cases hc with
      | inl h12 =>
        cases h12 with
        | inl h1 =>
          cases h1 with
          | inl h => exact Or.inl ((isTruthy_false_iff t).mp h)
          | inr h => exact Or.inr (Or.inl ((isTruthy_false_iff d).mp h))
        | inr h => exact Or.inr (Or.inr (Or.inl ((isTruthy_false_iff c).mp h)))
      | inr h => exact Or.inr (Or.inr (Or.inr ((isTruthy_false_iff l).mp h)))
    refine ⟨⟨fun _ => hdisj, fun _ => by rw [hres]⟩, fun _ => hres, fun hne => ?_⟩
    exact absurd (show (createProblem t d c l now st).2 = .invalidInput by
      rw [hres]) hne
  · have hall : isTruthy t = true ∧ isTruthy d = true ∧ isTruthy c = true ∧
        isTruthy l = true := by
      refine ⟨?_, ?_, ?_, ?_⟩ <;> by_contra hb
      · exact hc (by simp [Bool.eq_false_iff.mpr hb])
      · exact hc (by simp [Bool.eq_false_iff.mpr hb])
      · exact hc (by simp [Bool.eq_false_iff.mpr hb])
      · exact hc (by simp [Bool.eq_false_iff.mpr hb])
    obtain ⟨s1, ht1, hs1⟩ := (isTruthy_true_iff t).mp hall.1
    obtain ⟨s2, hd1, hs2⟩ := (isTruthy_true_iff d).mp hall.2.1
    obtain ⟨s3, hc1, hs3⟩ := (isTruthy_true_iff c).mp hall.2.2.1
    obtain ⟨s4, hl1, hs4⟩ := (isTruthy_true_iff l).mp hall.2.2.2
    subst ht1; subst hd1; subst hc1; subst hl1
    have hres : createProblem (some s1) (some s2) (some s3) (some s4) now st =
        ({ problems := st.problems ++ [newProblemRec st.nextId s1 s2 s3 s4 now],
           nextId := st.nextId + 1 },
         .ok (newProblemRec st.nextId s1 s2 s3 s4 now)) := by
      unfold createProblem
      rw [if_neg hc]
      rfl
    refine ⟨⟨fun h => ?_, fun h => ?_⟩, fun h => ?_, fun _ => ?_⟩
    · rw [hres] at h
      exact absurd h (by simp)
    · exact absurd h (by simp [hs1, hs2, hs3, hs4])
    · rw [hres] at h
      exact absurd h (by simp)
    · exact ⟨newProblemRec st.nextId s1 s2 s3 s4 now, hres, rfl, rfl, rfl, rfl,
        rfl, rfl, rfl, rfl, rfl⟩

/-- Witness for C4: a concrete empty-title create fails without
mutation, and a concrete valid create grows the collection by one. -/
theorem create_validates_witness :
    createProblem (some "") (some "b") (some "c") (some "d") 9 initialState =
      (initialState, .invalidInput) ∧
    (createProblem (some "Pothole") (some "Large pothole")
        (some "infrastructure") (some "Main St") 1 initialState).1.problems.length =
      initialState.problems.length + 1 := by
  constructor
  · exact (create_validates (some "") (some "b") (some "c") (some "d") 9
      initialState).2.1
      ((create_validates (some "") (some "b") (some "c") (some "d") 9
        initialState).1.mpr (Or.inl (Or.inr rfl)))
  · obtain ⟨p, hres, -⟩ := (create_validates (some "Pothole")
      (some "Large pothole") (some "infrastructure") (some "Main St") 1
      initialState).2.2 (by decide)
    rw [hres]
    simp

/-! ## C5: upvote increments by exactly one and refreshes updatedAt -/

/-- C5: when the id of stored record `p` is addressed (the parsed path
segment matches `p` first) at a clock value strictly later than `p`'s
`updatedAt`, `Upvote` answers a record `p'` equal to `p` except that
`upvotes` is exactly one larger and `updatedAt` is refreshed; every
other record and the counter are untouched, and a subsequent `Get` of
the same id answers `p'`, whose `upvotes` exceed `p`'s by exactly 1
and whose `updatedAt` is strictly greater than `p`'s was. -/
theorem upvote_increments (st : State) (idStr : String) (p : Problem)
    (now : Nat) (hfind : st.problems.find? (matchesId idStr) = some p)
    (hnow : p.updatedAt < now) :
    ∃ st' p', upvoteProblem idStr now st = (st', .ok p') ∧
      p' = { p with upvotes := p.upvotes + 1, updatedAt := now } ∧
      (∃ l1 l2, st.problems = l1 ++ p :: l2 ∧ st'.problems = l1 ++ p' :: l2) ∧
      st'.nextId = st.nextId ∧
      getProblem idStr st' = .ok p' ∧
      p'.upvotes = p.upvotes + 1 ∧
      p.updatedAt < p'.updatedAt := by
  obtain ⟨l1, l2, hsplit, hl1, hp⟩ := find?_split hfind
  have hupd := updateFirst_append (f := matchesId idStr)
    (g := fun q => { q with upvotes := q.upvotes + 1, updatedAt := now })
    l1 p l2 hl1 hp
  refine ⟨{ st with problems := l1 ++ { p with upvotes := p.upvotes + 1, updatedAt := now } :: l2 },
    { p with upvotes := p.upvotes + 1, updatedAt := now },
    ?_, rfl, ⟨l1, l2, hsplit, rfl⟩, rfl, ?_, rfl, hnow⟩
  · unfold upvoteProblem
    rw [hsplit, hupd]
  · unfold getProblem
    have hp' : matchesId idStr { p with upvotes := p.upvotes + 1, updatedAt := now } = true := by
      rw [matchesId_iff] at hp ⊢
      exact hp
    have : ({ st with problems := l1 ++ { p with upvotes := p.upvotes + 1, updatedAt := now } :: l2 } : State).problems =
        l1 ++ { p with upvotes := p.upvotes + 1, updatedAt := now } :: l2 := rfl
    rw [this, find?_of_split hl1 hp']

/-- Witness for C5: upvoting the concrete one-record state at clock
value 2 bumps `upvotes` to 1 and `updatedAt` to 2, visible to `Get`. -/
theorem upvote_increments_witness :
    upvoteProblem "1" 2 oneRecState =
      ({ problems := [{ potholeRec with upvotes := 1, updatedAt := 2 }], nextId := 2 },
        .ok { potholeRec with upvotes := 1, updatedAt := 2 }) ∧
    getProblem "1" (upvoteProblem "1" 2 oneRecState).1 =
      .ok { potholeRec with upvotes := 1, updatedAt := 2 } := by
  obtain ⟨st', p', hres, hp', ⟨l1, l2, hsplit, hst'⟩, hnext, hget, -, -⟩ :=
    upvote_increments oneRecState "1" potholeRec 2 (by decide) (by decide)
  have hl1 : l1 = [] := by
    cases l1 with
    | nil => rfl
    | cons a t =>
      have := congrArg List.length hsplit
      simp [oneRecState] at this
  subst hl1
  have hl2 : l2 = [] := by
    cases l2 with
    | nil => rfl
    | cons a t =>
      have := congrArg List.length hsplit
      simp [oneRecState] at this
  subst hl2
  subst hp'
  have hstval : st' = { problems := [{ potholeRec with upvotes := 1, updatedAt := 2 }], nextId := 2 } := by
    cases st' with
    | mk ps ni =>
      simp only at hst' hnext
      simp [hst', hnext, oneRecState, potholeRec]
  subst hstval
  refine ⟨hres, ?_⟩
  rw [hres]
  exact hget

/-! ## C8: delete removes exactly the addressed record -/

/-- C8: when the id of stored record `p` is addressed and stored ids
are pairwise distinct, `Delete` removes exactly `p`: the collection
shrinks by exactly one, the remaining records are unchanged and keep
their relative order, the counter is untouched, the removed record's
snapshot is returned, and a subsequent `Get` of the same id answers
`notFound`. -/
theorem delete_removes (st : State) (idStr : String) (p : Problem)
    (hfind : st.problems.find? (matchesId idStr) = some p)
    (hnodup : (st.problems.map Problem.id).Nodup) :
    ∃ l1 l2, st.problems = l1 ++ p :: l2 ∧
      deleteProblem idStr st = ({ st with problems := l1 ++ l2 }, .ok p) ∧
      (deleteProblem idStr st).1.problems.length + 1 = st.problems.length ∧
      getProblem idStr (deleteProblem idStr st).1 = .notFound ∧
      (deleteProblem idStr st).1.nextId = st.nextId := by
  obtain ⟨l1, l2, hsplit, hl1, hp⟩ := find?_split hfind
  have hrem := removeFirst_append (f := matchesId idStr) l1 p l2 hl1 hp
  have hdel : deleteProblem idStr st = ({ st with problems := l1 ++ l2 }, .ok p) := by
    unfold deleteProblem
    rw [hsplit, hrem]
  have hpid : parseInt idStr = some (p.id : Int) := (matchesId_iff idStr p).mp hp
  have hpnotin : p.id ∉ l2.map Problem.id := by
    rw [hsplit] at hnodup
    simp only [List.map_append, List.map_cons] at hnodup
    have h2 := (List.nodup_append.mp hnodup).2.1
    exact (List.nodup_cons.mp h2).1
  have hl2 : ∀ r ∈ l2, matchesId idStr r = false := by
    intro r hr
    rcases hb : matchesId idStr r with _ | _
    · rfl
    · exfalso
      have hrid := (matchesId_iff idStr r).mp hb
      rw [hpid] at hrid
      have hcast : (p.id : Int) = (r.id : Int) := by
        exact Option.some.injEq .. ▸ hrid
      have heq : p.id = r.id := by exact_mod_cast hcast
      exact hpnotin (heq ▸ List.mem_map_of_mem Problem.id hr)
  have hnone : (l1 ++ l2).find? (matchesId idStr) = none := by
    apply List.find?_eq_none.mpr
    intro x hx
    rcases List.mem_append.mp hx with h | h
    · simp [hl1 x h]
    · simp [hl2 x h]
  refine ⟨l1, l2, hsplit, hdel, ?_, ?_, by rw [hdel]⟩
  · rw [hdel, hsplit]
    simp
    omega
  · rw [hdel]
    unfold getProblem
    have hpr : ({ st with problems := l1 ++ l2 } : State).problems = l1 ++ l2 := rfl
    rw [hpr, hnone]

/-- Witness for C8: deleting id 2 from the concrete two-record state
shrinks it by one and makes a subsequent `Get` answer `notFound`. -/
theorem delete_removes_witness :
    getProblem "2" (deleteProblem "2" twoRecState).1 = .notFound ∧
    (deleteProblem "2" twoRecState).1.problems.length + 1 =
      twoRecState.problems.length ∧
    (deleteProblem "2" twoRecState).1.nextId = twoRecState.nextId := by
  obtain ⟨l1, l2, hsplit, hdel, hlen, hget, hnid⟩ :=
    delete_removes twoRecState "2" streetlightRec (by decide) (by decide)
  exact ⟨hget, hlen, hnid⟩

/-! ## C9: update with only falsy fields refreshes updatedAt alone -/

/-- C9: when the id of stored record `p` is addressed and every one of
the five body fields is absent or falsy, `Update` still succeeds: it
answers `p` with only `updatedAt` refreshed to the current time (id,
title, description, category, location, status, upvotes and createdAt
all unchanged), every other record keeps its place, and the counter is
untouched. -/
theorem update_all_falsy (st : State) (idStr : String) (p : Problem)
    (t d c l s : Option String) (now : Nat)
    (hfind : st.problems.find? (matchesId idStr) = some p)
    (ht : isTruthy t = false) (hd : isTruthy d = false)
    (hc : isTruthy c = false) (hl : isTruthy l = false)
    (hs : isTruthy s = false) :
    ∃ st', updateProblem idStr t d c l s now st =
        (st', .ok { p with updatedAt := now }) ∧
      (∃ l1 l2, st.problems = l1 ++ p :: l2 ∧
        st'.problems = l1 ++ { p with updatedAt := now } :: l2) ∧
      st'.nextId = st.nextId ∧
      ({ p with updatedAt := now }).id = p.id ∧
      ({ p with updatedAt := now }).title = p.title ∧
      ({ p with updatedAt := now }).description = p.description ∧
      ({ p with updatedAt := now }).category = p.category ∧
      ({ p with updatedAt := now }).location = p.location ∧
      ({ p with updatedAt := now }).status = p.status ∧
      ({ p with updatedAt := now }).upvotes = p.upvotes ∧
      ({ p with updatedAt := now }).createdAt = p.createdAt ∧
      ({ p with updatedAt := now }).updatedAt = now := by
  obtain ⟨l1, l2, hsplit, hl1, hp⟩ := find?_split hfind
  have hupd := updateFirst_append
    (g := applyUpdateFields t d c l s now) l1 p l2 hl1 hp
  have hg : applyUpdateFields t d c l s now p = { p with updatedAt := now } := by
    simp [applyUpdateFields, jsOr, ht, hd, hc, hl, hs]
  rw [hg] at hupd
  refine ⟨{ st with problems := l1 ++ { p with updatedAt := now } :: l2 },
    ?_, ⟨l1, l2, hsplit, rfl⟩, rfl, rfl, rfl, rfl, rfl, rfl, rfl, rfl, rfl, rfl⟩
  unfold updateProblem
  rw [hsplit, hupd]

/-- Witness for C9: updating id 1 of the concrete one-record state
with five empty-string fields at clock value 5 only refreshes its
`updatedAt`. -/
theorem update_all_falsy_witness :
    updateProblem "1" (some "") (some "") (some "") (some "") (some "") 5
      oneRecState =
      ({ problems := [{ potholeRec with updatedAt := 5 }], nextId := 2 },
        .ok { potholeRec with updatedAt := 5 }) := by
  obtain ⟨st', hres, ⟨l1, l2, hsplit, hst'⟩, hnext, -⟩ :=
    update_all_falsy oneRecState "1" potholeRec (some "") (some "") (some "")
      (some "") (some "") 5 (by decide) (by decide) (by decide) (by decide)
      (by decide) (by decide)
  have hl1 : l1 = [] := by
    cases l1 with
    | nil => rfl
    | cons a tl =>
      have := congrArg List.length hsplit
      simp [oneRecState] at this
  subst hl1
  have hl2 : l2 = [] := by
    cases l2 with
    | nil => rfl
    | cons a tl =>
      have := congrArg List.length hsplit
      simp [oneRecState] at this
  subst hl2
  have hstval : st' = { problems := [{ potholeRec with updatedAt := 5 }], nextId := 2 } := by
    cases st' with
    | mk ps ni =>
      simp only at hst' hnext
      simp [hst', hnext, oneRecState]
  subst hstval
  exact hres

/-! ## C6: statistics are computed over the full collection -/

theorem catIndicator_le (c : String) :
    (if c == "infrastructure" then 1 else 0) + (if c == "safety" then 1 else 0) +
    (if c == "environment" then 1 else 0) + (if c == "education" then 1 else 0) +
    (if c == "health" then 1 else 0) ≤ 1 := by
  by_cases h1 : c = "infrastructure"
  · subst h1; decide
  by_cases h2 : c = "safety"
  · subst h2; decide
  by_cases h3 : c = "environment"
  · subst h3; decide
  by_cases h4 : c = "education"
  · subst h4; decide
  by_cases h5 : c = "health"
  · subst h5; decide
  have b1 : (c == "infrastructure") = false := beq_eq_false_iff_ne.mpr h1
  have b2 : (c == "safety") = false := beq_eq_false_iff_ne.mpr h2
  have b3 : (c == "environment") = false := beq_eq_false_iff_ne.mpr h3
  have b4 : (c == "education") = false := beq_eq_false_iff_ne.mpr h4
  have b5 : (c == "health") = false := beq_eq_false_iff_ne.mpr h5
  simp [b1, b2, b3, b4, b5]

theorem countP_five_le (p1 p2 p3 p4 p5 : Problem → Bool)
    (h : ∀ x, (if p1 x then 1 else 0) + (if p2 x then 1 else 0) +
      (if p3 x then 1 else 0) + (if p4 x then 1 else 0) +
      (if p5 x then 1 else 0) ≤ 1) :
    ∀ l : List Problem, l.countP p1 + l.countP p2 + l.countP p3 +
      l.countP p4 + l.countP p5 ≤ l.length := by
  intro l
  induction l with
  | nil => simp
  | cons x xs ih =>
    have hx := h x
    simp only [List.countP_cons, List.length_cons]
    split_ifs at hx ⊢ <;> omega

theorem upvoteGe_trans : ∀ a b c : Problem, upvoteGe a b = true →
    upvoteGe b c = true → upvoteGe a c = true := by
  intro a b c hab hbc
  simp only [upvoteGe, decide_eq_true_eq] at hab hbc ⊢
  exact le_trans hbc hab

theorem upvoteGe_total : ∀ a b : Problem,
    (upvoteGe a b || upvoteGe b a) = true := by
  intro a b
  simp only [upvoteGe, Bool.or_eq_true, decide_eq_true_eq]
  exact (Nat.le_total b.upvotes a.upvotes).imp id id

/-- C6: `Stats` reports the exact collection size as `total`, the
exact number of records bearing each of the three statuses, the exact
number of records bearing each of the five recognized categories — so
those five counts sum to at most `total` — and as `topUpvoted` the
first 5 records of a reordering of the collection that is
non-increasing in `upvotes`.  Being a total function, it never
fails. -/
theorem stats_correct (st : State) :
    (getStats st).2.total = st.problems.length ∧
    (getStats st).2.open_ = st.problems.countP (fun p => p.status == "open") ∧
    (getStats st).2.inProgress =
      st.problems.countP (fun p => p.status == "in-progress") ∧
    (getStats st).2.resolved =
      st.problems.countP (fun p => p.status == "resolved") ∧
    (getStats st).2.infrastructure =
      st.problems.countP (fun p => p.category == "infrastructure") ∧
    (getStats st).2.safety =
      st.problems.countP (fun p => p.category == "safety") ∧
    (getStats st).2.environment =
      st.problems.countP (fun p => p.category == "environment") ∧
    (getStats st).2.education =
      st.problems.countP (fun p => p.category == "education") ∧
    (getStats st).2.health =
      st.problems.countP (fun p => p.category == "health") ∧
    (getStats st).2.infrastructure + (getStats st).2.safety +
      (getStats st).2.environment + (getStats st).2.education +
      (getStats st).2.health ≤ (getStats st).2.total ∧
    ∃ l, st.problems.Perm l ∧
      List.Pairwise (fun a b : Problem => b.upvotes ≤ a.upvotes) l ∧
      (getStats st).2.topUpvoted = l.take 5 := by
  refine ⟨rfl, (List.countP_eq_length_filter _ _).symm,
    (List.countP_eq_length_filter _ _).symm,
    (List.countP_eq_length_filter _ _).symm,
    (List.countP_eq_length_filter _ _).symm,
    (List.countP_eq_length_filter _ _).symm,
    (List.countP_eq_length_filter _ _).symm,
    (List.countP_eq_length_filter _ _).symm,
    (List.countP_eq_length_filter _ _).symm, ?_, ?_⟩
  · have h := countP_five_le (fun p => p.category == "infrastructure")
      (fun p => p.category == "safety") (fun p => p.category == "environment")
      (fun p => p.category == "education") (fun p => p.category == "health")
      (fun x => catIndicator_le x.category) st.problems
    simp only [List.countP_eq_length_filter] at h
    exact h
  · refine ⟨st.problems.mergeSort upvoteGe,
      (List.mergeSort_perm st.problems upvoteGe).symm, ?_, rfl⟩
    have hs := List.sorted_mergeSort upvoteGe_trans upvoteGe_total st.problems
    exact hs.imp (fun hab => of_decide_eq_true hab)

/-! ## C7: list filtering — corrected for empty-string filter values -/

/-- C7 counterexample: with the status filter supplied as the empty
string, the handler's truthiness check skips filtering entirely, so it
returns the full (non-empty) collection even though no record's status
equals the supplied filter value `""` — the exact-equality reading of
the claim would return the empty sequence. -/
theorem list_filter_cex :
    listProblems (some "") none oneRecState = oneRecState.problems ∧
    oneRecState.problems.filter (fun p =>
      suppliedMatch (some "") p.status && suppliedMatch none p.category) = [] ∧
    oneRecState.problems ≠ [] := by decide

/-- C7 amended: for every collection state and every combination of
the optional filters, `List` returns exactly the records matching
every *effective* filter (a supplied non-empty value is an exact-match
constraint; an absent value — and likewise a supplied empty-string
value, which the handler's truthiness test treats as absent —
constrains nothing), in the collection's current storage order; with
no filters supplied it returns the full collection, and it never
fails. -/
theorem list_filters_amended (status category : Option String) (st : State) :
    listProblems status category st =
      st.problems.filter (fun p => effectiveMatch status p.status &&
        effectiveMatch category p.category) ∧
    listProblems none none st = st.problems := by
  constructor
  · unfold listProblems effectiveMatch
    by_cases hs : isTruthy status = true
    · by_cases hc : isTruthy category = true
      · simp only [hs, hc, if_true, List.filter_filter]
        exact List.filter_congr (fun x _ => by rw [Bool.and_comm])
      · have hc' : isTruthy category = false := Bool.eq_false_iff.mpr hc
        simp [hs, hc']
    · have hs' : isTruthy status = false := Bool.eq_false_iff.mpr hs
      by_cases hc : isTruthy category = true
      · simp [hs', hc]
      · have hc' : isTruthy category = false := Bool.eq_false_iff.mpr hc
        simp [hs', hc']
  · simp [listProblems, isTruthy]

/-! ## C10: id segments go through parseInt — corrected for hex prefixes -/

/-- C10 counterexample: the leading characters of the segment `"0x2"`
that form a decimal integer are `"0"`, and no stored record carries
id 0, so under the claim every lookup with that segment answers
`notFound`; but `parseInt` reads the `0x` prefix as hexadecimal,
yielding 2, and the handler returns the record with id 2. -/
theorem parse_id_cex :
    leadingDecimal "0x2" = some 0 ∧
    twoRecState.problems.all (fun p => p.id != 0) = true ∧
    getProblem "0x2" twoRecState = .ok streetlightRec := by decide

theorem parseInt_eq_leadingDecimal (s : String) (h : hexPrefixed s = false) :
    parseInt s = leadingDecimal s := by
  unfold parseInt leadingDecimal
  rw [h]
  simp

/-- C10 amended: every `:id` handler interprets the path segment with
ECMAScript `parseInt`.  On segments without a hexadecimal `0x`/`0X`
prefix (after optional whitespace and sign), the leading decimal
integer — even when followed by non-numeric characters — is the id the
lookup predicate compares against; a hex-prefixed segment is instead
read as hexadecimal.  A segment with no digits to read (`parseInt`
yields `NaN`) matches no record, so every such operation answers
`notFound` and mutates nothing. -/
theorem parse_id_semantics (s : String) (st : State) :
    (parseInt s = none →
      getProblem s st = .notFound ∧
      (∀ t d c l stat now, updateProblem s t d c l stat now st = (st, .notFound)) ∧
      (∀ now, upvoteProblem s now st = (st, .notFound)) ∧
      (∀ v now, changeStatusProblem s v now st = (st, .notFound)) ∧
      deleteProblem s st = (st, .notFound)) ∧
    (∀ n : Int, leadingDecimal s = some n → hexPrefixed s = false →
      ∀ p : Problem, matchesId s p = (n == (p.id : Int))) := by
  constructor
  · intro hnan
    have hfalse : ∀ p ∈ st.problems, matchesId s p = false := by
      intro p _
      simp [matchesId, hnan]
    have hfind : st.problems.find? (matchesId s) = none :=
      List.find?_eq_none.mpr (fun x hx => by simp [hfalse x hx])
    have hupd : ∀ g, updateFirst (matchesId s) g st.problems = none :=
      fun g => updateFirst_eq_none_iff.mpr hfalse
    have hrem : removeFirst (matchesId s) st.problems = none :=
      removeFirst_eq_none_iff.mpr hfalse
    refine ⟨by simp [getProblem, hfind], ?_, ?_, ?_,
      by simp [deleteProblem, hrem]⟩
    · intro t d c l stat now
      simp [updateProblem, hupd]
    · intro now
      simp [upvoteProblem, hupd]
    · intro v now
      simp [changeStatusProblem, hupd]
  · intro n hld hhex p
    have hpi : parseInt s = some n := by
      rw [parseInt_eq_leadingDecimal s hhex]
      exact hld
    simp [matchesId, hpi]

/-- Witness for C10 at concrete segments: `"abc"` parses to `NaN` and
`Get` answers `notFound`; `"5xyz"`'s leading decimal integer 5 is what
the lookup predicate compares ids against. -/
theorem parse_id_semantics_witness :
    getProblem "abc" twoRecState = .notFound ∧
    matchesId "5xyz" potholeRec = ((5 : Int) == (potholeRec.id : Int)) :=
  ⟨((parse_id_semantics "abc" twoRecState).1 (by decide)).1,
    (parse_id_semantics "5xyz" twoRecState).2 5 (by decide) (by decide)
      potholeRec⟩

/-! ## Trace-level lemmas for the id and status invariants -/

theorem updateProblem_nextId (i : String) (t d c l s : Option String)
    (now : Nat) (st : State) :
    (updateProblem i t d c l s now st).1.nextId = st.nextId := by
  unfold updateProblem
  split <;> rfl

theorem upvoteProblem_nextId (i : String) (now : Nat) (st : State) :
    (upvoteProblem i now st).1.nextId = st.nextId := by
  unfold upvoteProblem
  split <;> rfl

theorem changeStatusProblem_nextId (i v : String) (now : Nat) (st : State) :
    (changeStatusProblem i v now st).1.nextId = st.nextId := by
  unfold changeStatusProblem
  split
  · rfl
  · split <;> rfl

theorem deleteProblem_nextId (i : String) (st : State) :
    (deleteProblem i st).1.nextId = st.nextId := by
  unfold deleteProblem
  split <;> rfl

theorem createProblem_cases (t d c l : Option String) (now : Nat) (st : State) :
    createProblem t d c l now st = (st, .invalidInput) ∨
    ∃ p, p.id = st.nextId ∧ p.status = "open" ∧
      createProblem t d c l now st =
        ({ problems := st.problems ++ [p], nextId := st.nextId + 1 }, .ok p) := by
  unfold createProblem
  split
  · exact Or.inl rfl
  · exact Or.inr ⟨_, rfl, rfl, rfl⟩

theorem applyOp_nextId_mono (o : Op) (tm : Nat) (st : State) :
    st.nextId ≤ ((applyOp o tm st).1).nextId := by
  cases o with
  | list s c => exact le_refl _
  | get i => exact le_refl _
  | create t d c l =>
    show st.nextId ≤ (createProblem t d c l tm st).1.nextId
    cases createProblem_cases t d c l tm st with
    | inl h => rw [h]
    | inr h =>
      obtain ⟨p, -, -, h⟩ := h
      rw [h]
      exact Nat.le_succ _
  | update i t d c l s =>
    show st.nextId ≤ (updateProblem i t d c l s tm st).1.nextId
    rw [updateProblem_nextId]
  | upvote i =>
    show st.nextId ≤ (upvoteProblem i tm st).1.nextId
    rw [upvoteProblem_nextId]
  | changeStatus i v =>
    show st.nextId ≤ (changeStatusProblem i v tm st).1.nextId
    rw [changeStatusProblem_nextId]
  | delete i =>
    show st.nextId ≤ (deleteProblem i st).1.nextId
    rw [deleteProblem_nextId]
  | stats => exact le_refl _

theorem createdIds_cons (o : Op) (tm : Nat) (st : State)
    (rest : List (Op × Nat)) :
    createdIds st ((o, tm) :: rest) =
      (match o, (applyOp o tm st).2 with
        | Op.create _ _ _ _, .res (.ok p) =>
          p.id :: createdIds (applyOp o tm st).1 rest
        | _, _ => createdIds (applyOp o tm st).1 rest) := rfl

theorem createdIds_cons_not_create {o : Op} (tm : Nat) (st : State)
    (rest : List (Op × Nat)) (ho : ∀ t d c l, o ≠ Op.create t d c l) :
    createdIds st ((o, tm) :: rest) = createdIds (applyOp o tm st).1 rest := by
  cases o
  case create t d c l => exact absurd rfl (ho t d c l)
  all_goals rfl

theorem createdIds_cons_create_ok {t d c l : Option String} {tm : Nat}
    {st st' : State} {p : Problem} (rest : List (Op × Nat))
    (h : createProblem t d c l tm st = (st', .ok p)) :
    createdIds st ((Op.create t d c l, tm) :: rest) =
      p.id :: createdIds st' rest := by
  have h1 : (applyOp (Op.create t d c l) tm st).2 = .res (.ok p) := by
    simp [applyOp, h]
  have h2 : (applyOp (Op.create t d c l) tm st).1 = st' := by
    simp [applyOp, h]
  rw [createdIds_cons, h1, h2]

theorem createdIds_cons_create_inv {t d c l : Option String} {tm : Nat}
    {st : State} (rest : List (Op × Nat))
    (h : createProblem t d c l tm st = (st, .invalidInput)) :
    createdIds st ((Op.create t d c l, tm) :: rest) = createdIds st rest := by
  have h1 : (applyOp (Op.create t d c l) tm st).2 = .res .invalidInput := by
    simp [applyOp, h]
  have h2 : (applyOp (Op.create t d c l) tm st).1 = st := by
    simp [applyOp, h]
  rw [createdIds_cons, h1, h2]

theorem createdIds_lb (ops : List (Op × Nat)) :
    ∀ (st : State) (i : Nat), i ∈ createdIds st ops → st.nextId ≤ i := by
  induction ops with
  | nil =>
    intro st i h
    simp [createdIds] at h
  | cons ot rest ih =>
    intro st i h
    obtain ⟨o, tm⟩ := ot
    cases o
    case create t d c l =>
      cases createProblem_cases t d c l tm st with
      | inl hinv =>
        rw [createdIds_cons_create_inv rest hinv] at h
        exact ih st i h
      | inr hex =>
        obtain ⟨p, hpid, -, heq⟩ := hex
        rw [createdIds_cons_create_ok rest heq] at h
        cases List.mem_cons.mp h with
        | inl h' =>
          rw [h', hpid]
        | inr h' =>
          have hlb : st.nextId + 1 ≤ i := ih _ i h'
          omega
    all_goals {
      rw [createdIds_cons_not_create tm st rest
        (fun _ _ _ _ h' => Op.noConfusion h')] at h
      exact le_trans (applyOp_nextId_mono _ tm st) (ih _ i h) }

theorem createdIds_pairwise (ops : List (Op × Nat)) :
    ∀ st : State, List.Pairwise (· < ·) (createdIds st ops) := by
  induction ops with
  | nil =>
    intro st
    simp [createdIds]
  | cons ot rest ih =>
    intro st
    obtain ⟨o, tm⟩ := ot
    cases o
    case create t d c l =>
      cases createProblem_cases t d c l tm st with
      | inl hinv =>
        rw [createdIds_cons_create_inv rest hinv]
        exact ih st
      | inr hex =>
        obtain ⟨p, hpid, -, heq⟩ := hex
        rw [createdIds_cons_create_ok rest heq]
        constructor
        · intro j hj
          have hlb : st.nextId + 1 ≤ j := createdIds_lb rest _ j hj
          omega
        · exact ih _
    all_goals {
      rw [createdIds_cons_not_create tm st rest
        (fun _ _ _ _ h' => Op.noConfusion h')]
      exact ih _ }

theorem ids_preserved_of_map_eq {l l' : List Problem} {n : Nat}
    (hmap : l'.map Problem.id = l.map Problem.id)
    (h1 : ∀ p ∈ l, p.id < n) (h2 : (l.map Problem.id).Nodup) :
    (∀ p ∈ l', p.id < n) ∧ (l'.map Problem.id).Nodup := by
  constructor
  · intro p hp
    have hmem : p.id ∈ l.map Problem.id :=
      hmap ▸ List.mem_map_of_mem Problem.id hp
    obtain ⟨q, hq, hqe⟩ := List.mem_map.mp hmem
    exact hqe ▸ h1 q hq
  · rw [hmap]
    exact h2

theorem applyOp_preserves_ids (o : Op) (tm : Nat) (st : State)
    (h1 : ∀ p ∈ st.problems, p.id < st.nextId)
    (h2 : (st.problems.map Problem.id).Nodup) :
    (∀ p ∈ (applyOp o tm st).1.problems, p.id < (applyOp o tm st).1.nextId) ∧
    ((applyOp o tm st).1.problems.map Problem.id).Nodup := by
  cases o with
  | list s c => exact ⟨h1, h2⟩
  | get i => exact ⟨h1, h2⟩
  | create t d c l =>
    cases createProblem_cases t d c l tm st with
    | inl hinv =>
      have he : (applyOp (Op.create t d c l) tm st).1 = st := by
        simp [applyOp, hinv]
      rw [he]
      exact ⟨h1, h2⟩
    | inr hex =>
      obtain ⟨p, hpid, -, heq⟩ := hex
      have he : (applyOp (Op.create t d c l) tm st).1 =
          { problems := st.problems ++ [p], nextId := st.nextId + 1 } := by
        simp [applyOp, heq]
      rw [he]
      constructor
      · intro q hq
        rcases List.mem_append.mp hq with h' | h'
        · exact lt_trans (h1 q h') (Nat.lt_succ_self _)
        · have : q = p := by simpa using h'
          subst this
          rw [hpid]
          exact Nat.lt_succ_self _
      · show ((st.problems ++ [p]).map Problem.id).Nodup
        rw [List.map_append]
        apply List.nodup_append.mpr
        refine ⟨h2, by simp, ?_⟩
        intro x hx hx'
        have hxp : x = p.id := by simpa using hx'
        obtain ⟨q, hq, hqe⟩ := List.mem_map.mp hx
        have : q.id < st.nextId := h1 q hq
        rw [hqe, hxp, hpid] at this
        exact lt_irrefl _ this
  | update i t d c l s =>
    show (∀ p ∈ (updateProblem i t d c l s tm st).1.problems,
        p.id < (updateProblem i t d c l s tm st).1.nextId) ∧
      ((updateProblem i t d c l s tm st).1.problems.map Problem.id).Nodup
    unfold updateProblem
    cases hu : updateFirst (matchesId i)
        (applyUpdateFields t d c l s tm) st.problems with
    | none => exact ⟨h1, h2⟩
    | some pr =>
      obtain ⟨ps, q⟩ := pr
      have hmap := updateFirst_map hu Problem.id (fun p => rfl)
      exact ids_preserved_of_map_eq hmap h1 h2
  | upvote i =>
    show (∀ p ∈ (upvoteProblem i tm st).1.problems,
        p.id < (upvoteProblem i tm st).1.nextId) ∧
      ((upvoteProblem i tm st).1.problems.map Problem.id).Nodup
    unfold upvoteProblem
    cases hu : updateFirst (matchesId i)
        (fun p => { p with upvotes := p.upvotes + 1, updatedAt := tm })
        st.problems with
    | none => exact ⟨h1, h2⟩
    | some pr =>
      obtain ⟨ps, q⟩ := pr
      have hmap := updateFirst_map hu Problem.id (fun p => rfl)
      exact ids_preserved_of_map_eq hmap h1 h2
  | changeStatus i v =>
    show (∀ p ∈ (changeStatusProblem i v tm st).1.problems,
        p.id < (changeStatusProblem i v tm st).1.nextId) ∧
      ((changeStatusProblem i v tm st).1.problems.map Problem.id).Nodup
    unfold changeStatusProblem
    cases hu : updateFirst (matchesId i)
        (fun p => { p with status := v, updatedAt := tm }) st.problems with
    | none => exact ⟨h1, h2⟩
    | some pr =>
      obtain ⟨ps, q⟩ := pr
      by_cases hv : v ∈ validStatuses
      · have hmap := updateFirst_map hu Problem.id (fun p => rfl)
        have hres := ids_preserved_of_map_eq hmap h1 h2
        simpa [hv] using hres
      · have hres : (∀ p ∈ st.problems, p.id < st.nextId) ∧
            (st.problems.map Problem.id).Nodup := ⟨h1, h2⟩
        simpa [hv] using hres
  | delete i =>
    show (∀ p ∈ (deleteProblem i st).1.problems,
        p.id < (deleteProblem i st).1.nextId) ∧
      ((deleteProblem i st).1.problems.map Problem.id).Nodup
    unfold deleteProblem
    cases hu : removeFirst (matchesId i) st.problems with
    | none => exact ⟨h1, h2⟩
    | some pr =>
      obtain ⟨ps, q⟩ := pr
      have hsub := removeFirst_sublist hu
      constructor
      · intro p hp
        exact h1 p (hsub.subset hp)
      · exact (hsub.map Problem.id).nodup h2
  | stats =>
    have hperm : (st.problems.mergeSort upvoteGe).Perm st.problems :=
      List.mergeSort_perm st.problems upvoteGe
    constructor
    · intro p hp
      exact h1 p (hperm.subset hp)
    · exact ((hperm.map Problem.id).symm).nodup h2

theorem run_preserves_ids (ops : List (Op × Nat)) :
    ∀ st : State, (∀ p ∈ st.problems, p.id < st.nextId) →
    (st.problems.map Problem.id).Nodup →
    (∀ p ∈ (run st ops).problems, p.id < (run st ops).nextId) ∧
    ((run st ops).problems.map Problem.id).Nodup := by
  induction ops with
  | nil => exact fun st h1 h2 => ⟨h1, h2⟩
  | cons ot rest ih =>
    intro st h1 h2
    obtain ⟨o, tm⟩ := ot
    have h' := applyOp_preserves_ids o tm st h1 h2
    exact ih _ h'.1 h'.2

/-! ## C2: ids are strictly increasing, pairwise distinct, never reused -/

/-- C2: along every trace of requests from the empty registry, the ids
returned by successive successful creates are strictly increasing —
hence pairwise distinct and never reassigned, even after deletions —
and at every reachable point the stored records' ids are pairwise
distinct.  (Every reachable point is `run initialState ops` for a
prefix `ops` of the trace, and the statement quantifies over all
traces.) -/
theorem ids_strictly_increasing_and_unique (ops : List (Op × Nat)) :
    List.Pairwise (· < ·) (createdIds initialState ops) ∧
    (createdIds initialState ops).Nodup ∧
    ((run initialState ops).problems.map Problem.id).Nodup := by
  refine ⟨createdIds_pairwise ops initialState, ?_, ?_⟩
  · exact (createdIds_pairwise ops initialState).imp (fun h => Nat.ne_of_lt h)
  · exact (run_preserves_ids ops initialState
      (by intro p hp; simp [initialState] at hp)
      (by simp [initialState])).2

/-! ## C1: the status invariant — corrected for unvalidated Update -/

theorem status_preserved_updateFirst {f : Problem → Bool}
    {g : Problem → Problem} {l l' : List Problem} {q : Problem}
    (hm : updateFirst f g l = some (l', q))
    (hg : ∀ p ∈ l, (g p).status ∈ validStatuses ∨ (g p).status = p.status)
    (h : ∀ p ∈ l, p.status ∈ validStatuses) :
    ∀ p ∈ l', p.status ∈ validStatuses := by
  intro p hp
  rcases updateFirst_mem hm p hp with h' | ⟨r, hr, hre⟩
  · exact h p h'
  · subst hre
    cases hg r hr with
    | inl h'' => exact h''
    | inr h'' =>
      rw [h'']
      exact h r hr

theorem applyOp_preserves_status (o : Op) (tm : Nat) (st : State)
    (ho : opStatusSafe o = true)
    (h : ∀ p ∈ st.problems, p.status ∈ validStatuses) :
    ∀ p ∈ (applyOp o tm st).1.problems, p.status ∈ validStatuses := by
  cases o with
  | list s c => exact h
  | get i => exact h
  | stats =>
    intro p hp
    exact h p ((List.mergeSort_perm st.problems upvoteGe).subset hp)
  | create t d c l =>
    cases createProblem_cases t d c l tm st with
    | inl hinv =>
      have he : (applyOp (Op.create t d c l) tm st).1 = st := by
        simp [applyOp, hinv]
      rw [he]
      exact h
    | inr hex =>
      obtain ⟨p0, -, hst0, heq⟩ := hex
      have he : (applyOp (Op.create t d c l) tm st).1 =
          { problems := st.problems ++ [p0], nextId := st.nextId + 1 } := by
        simp [applyOp, heq]
      rw [he]
      intro p hp
      rcases List.mem_append.mp hp with h' | h'
      · exact h p h'
      · have : p = p0 := by simpa using h'
        subst this
        rw [hst0]
        simp [validStatuses]
  | update i t d c l s =>
    show ∀ p ∈ (updateProblem i t d c l s tm st).1.problems,
      p.status ∈ validStatuses
    unfold updateProblem
    cases hu : updateFirst (matchesId i)
        (applyUpdateFields t d c l s tm) st.problems with
    | none => exact h
    | some pr =>
      obtain ⟨ps, q⟩ := pr
      apply status_preserved_updateFirst hu _ h
      intro p _
      by_cases hts : isTruthy s = true
      · left
        have hsc : validStatuses.contains (s.getD "") = true := by
          have h0 := ho
          simp only [opStatusSafe] at h0
          rw [hts] at h0
          simpa using h0
        have hst : (applyUpdateFields t d c l s tm p).status = s.getD "" := by
          simp [applyUpdateFields, jsOr, hts]
        rw [hst]
        simpa using hsc
      · right
        have hts' : isTruthy s = false := Bool.eq_false_iff.mpr hts
        simp [applyUpdateFields, jsOr, hts']
  | upvote i =>
    show ∀ p ∈ (upvoteProblem i tm st).1.problems, p.status ∈ validStatuses
    unfold upvoteProblem
    cases hu : updateFirst (matchesId i)
        (fun p => { p with upvotes := p.upvotes + 1, updatedAt := tm })
        st.problems with
    | none => exact h
    | some pr =>
      obtain ⟨ps, q⟩ := pr
      exact status_preserved_updateFirst hu (fun p _ => Or.inr rfl) h
  | changeStatus i v =>
    show ∀ p ∈ (changeStatusProblem i v tm st).1.problems,
      p.status ∈ validStatuses
    unfold changeStatusProblem
    cases hu : updateFirst (matchesId i)
        (fun p => { p with status := v, updatedAt := tm }) st.problems with
    | none => exact h
    | some pr =>
      obtain ⟨ps, q⟩ := pr
      by_cases hv : v ∈ validStatuses
      · have hres := status_preserved_updateFirst hu
          (fun p _ => Or.inl (by simpa using hv)) h
        simpa [hv] using hres
      · simpa [hv] using h
  | delete i =>
    show ∀ p ∈ (deleteProblem i st).1.problems, p.status ∈ validStatuses
    unfold deleteProblem
    cases hu : removeFirst (matchesId i) st.problems with
    | none => exact h
    | some pr =>
      obtain ⟨ps, q⟩ := pr
      intro p hp
      exact h p ((removeFirst_sublist hu).subset hp)

theorem run_preserves_status (ops : List (Op × Nat)) :
    ∀ st : State, (∀ o ∈ ops, opStatusSafe o.1 = true) →
    (∀ p ∈ st.problems, p.status ∈ validStatuses) →
    ∀ p ∈ (run st ops).problems, p.status ∈ validStatuses := by
  induction ops with
  | nil => exact fun st _ h => h
  | cons ot rest ih =>
    intro st hops h
    obtain ⟨o, tm⟩ := ot
    exact ih _ (fun o' ho' => hops o' (List.mem_cons_of_mem _ ho'))
      (applyOp_preserves_status o tm st (hops (o, tm) (List.mem_cons_self _ _)) h)

/-- C1 counterexample: starting from the empty registry, a `Create`
followed by an `Update` carrying status `"bogus"` — a sequence drawn
from the claim's five operations — leaves a stored record whose status
is `"bogus"`, outside the three recognized values, because the update
handler persists any truthy status unvalidated. -/
theorem status_invariant_cex :
    (run initialState c1Trace).problems.map Problem.status = ["bogus"] ∧
    validStatuses.contains "bogus" = false := by decide

/-- C1 amended: for every state reachable from the empty collection by
a sequence of Create, Update, Upvote, ChangeStatus, Delete (and read)
operations in which every Update carries either a falsy status or one
of the three recognized values, the status of every stored record is
one of `open`, `in-progress`, `resolved`.  (An Update carrying any
other truthy status persists it, as the counterexample shows.) -/
theorem status_invariant_amended (ops : List (Op × Nat))
    (hops : ops.all (fun ot => opStatusSafe ot.1) = true) :
    (run initialState ops).problems.all
      (fun p => validStatuses.contains p.status) = true := by
  have h := run_preserves_status ops initialState
    (fun ot hot => List.all_eq_true.mp hops ot hot)
    (by intro p hp; simp [initialState] at hp)
  apply List.all_eq_true.mpr
  intro p hp
  simpa using h p hp

/-- Witness for C1 (amended) on the spec's end-to-end trace: create,
upvote, change status to `"resolved"` — every stored status stays in
the whitelist. -/
theorem status_invariant_amended_witness :
    (run initialState e2eTrace).problems.all
      (fun p => validStatuses.contains p.status) = true :=
  status_invariant_amended e2eTrace (by decide)
